import Mathlib

/-!
Formal model of the CreditRevive voice-chat client (src/App.tsx, src/types.ts).

The code under src/ is a React single-page client around a vendor live-audio
SDK.  The parts with behavioural content are shallowly embedded here:

* the transcript log and its bounded append (`addMessage`, App.tsx:31-34);
* the playback scheduler: the `nextStartTime` cursor, the active-source set,
  `enqueue` (App.tsx:76-85) and `stopAllAudio` (App.tsx:36-42);
* the inbound-message handler `handleMessage` (App.tsx:44-87), embedded as the
  composition of its four steps in source order (transcription accumulation,
  turn-complete flush, interruption stop, audio enqueue);
* session teardown `stopSession` (App.tsx:152-168), with an explicit trace of
  the release actions it performs;
* the `ConnectionStatus` state machine (types.ts:8-13) driven by the UI
  buttons (App.tsx:191, 212, 221) and the SDK callbacks (App.tsx:113-141);
* the PCM codec (utils/audio-utils is referenced from App.tsx but is not part
  of src/; it is modelled from the specification, see the doc comments below).

Times and durations are rationals; machine floats are modelled exactly.
-/

/-- Message role, from src/types.ts: `role: 'user' | 'agent'`. -/
inductive Role where
  | user
  | agent
deriving DecidableEq

/-- One transcript entry, from src/types.ts `Message` (the `timestamp` field
carries no behavioural content and is omitted). -/
structure Message where
  role : Role
  text : String
deriving DecidableEq

/-- The last `n` elements of a list, in order: the JS `Array.prototype.slice(-n)`
(for `n > 0`). -/
def lastN {α : Type} (n : Nat) (l : List α) : List α :=
  l.drop (l.length - n)

/-- The JS `String.prototype.trim()`: drop leading and trailing whitespace. -/
def jsTrim (s : String) : String :=
  String.mk (((s.data.dropWhile Char.isWhitespace).reverse.dropWhile
    Char.isWhitespace).reverse)

/-- The append `addMessage` from App.tsx:31-34:
`if (!text.trim()) return; setMessages(prev => [...prev.slice(-10), {role, text, ...}])`. -/
def addMessage (log : List Message) (role : Role) (text : String) : List Message :=
  if jsTrim text = "" then log else lastN 10 log ++ [⟨role, text⟩]

/-- Folding `addMessage` over a sequence of flushed entries. -/
def appendAll (log : List Message) (entries : List (Role × String)) : List Message :=
  entries.foldl (fun l p => addMessage l p.1 p.2) log

theorem length_lastN {α : Type} (n : Nat) (l : List α) :
    (lastN n l).length = min n l.length := by
  unfold lastN
  rw [List.length_drop]
  omega

theorem lastN_append_singleton {α : Type} (n : Nat) (l : List α) (a : α) :
    lastN (n + 1) (l ++ [a]) = lastN n l ++ [a] := by
  unfold lastN
  rw [List.length_append, List.length_singleton]
  have h : l.length + 1 - (n + 1) = l.length - n := by omega
  rw [h, List.drop_append_of_le_length (by omega)]

theorem lastN_lastN {α : Type} (m n : Nat) (l : List α) :
    lastN m (lastN n l) = lastN (min m n) l := by
  unfold lastN
  rw [List.drop_drop, List.length_drop]
  congr 1
  omega

/-- Twelve distinct non-blank entries, as in the spec's own test vector. -/
def twelveEntries : List (Role × String) :=
  [(Role.user, "m1"), (Role.user, "m2"), (Role.user, "m3"), (Role.user, "m4"),
   (Role.user, "m5"), (Role.user, "m6"), (Role.user, "m7"), (Role.user, "m8"),
   (Role.user, "m9"), (Role.user, "m10"), (Role.user, "m11"), (Role.user, "m12")]

/-- C1 counterexample: the claim says the log is capped at 10 entries and that
after appending 12 entries the first 2 are absent.  In the code
(`[...prev.slice(-10), msg]`, App.tsx:33) appending keeps the previous 10
entries *plus* the new one: after 12 appends the log holds 11 entries and
entry 2 (`"m2"`) is still present. -/
theorem transcript_cap_counterexample :
    (appendAll [] twelveEntries).length = 11 ∧
    Message.mk Role.user "m2" ∈ appendAll [] twelveEntries := by
  decide

theorem appendAll_eq_lastN_eleven (entries : List (Role × String)) :
    ∀ log : List Message, (∀ p ∈ entries, jsTrim p.2 ≠ "") →
      appendAll (lastN 11 log) entries =
        lastN 11 (log ++ entries.map (fun p => Message.mk p.1 p.2)) := by
  induction entries with
  | nil =>
      intro log _
      simp [appendAll]
  | cons p ps ih =>
      intro log h
      have hp : jsTrim p.2 ≠ "" := h p (List.mem_cons_self p ps)
      have step : addMessage (lastN 11 log) p.1 p.2 =
          lastN 11 (log ++ [Message.mk p.1 p.2]) := by
        rw [addMessage, if_neg hp, lastN_lastN]
        have h10 : min 10 11 = 10 := by decide
        rw [h10, lastN_append_singleton]
      have := ih (log ++ [Message.mk p.1 p.2])
        (fun q hq => h q (List.mem_cons_of_mem p hq))
      calc appendAll (lastN 11 log) (p :: ps)
          = appendAll (addMessage (lastN 11 log) p.1 p.2) ps := rfl
        _ = appendAll (lastN 11 (log ++ [Message.mk p.1 p.2])) ps := by rw [step]
        _ = lastN 11 ((log ++ [Message.mk p.1 p.2]) ++
              ps.map (fun q => Message.mk q.1 q.2)) := this
        _ = lastN 11 (log ++ (p :: ps).map (fun q => Message.mk q.1 q.2)) := by
              rw [List.append_assoc]
              rfl

/-- C1 (amended): the transcript log kept by `addMessage` (App.tsx:31-34) is
capped at the most recent 11 entries, not 10: appending retains the last 10
previous entries plus the new one.  Starting from an empty log, after any
sequence of non-blank appends the log equals the last 11 entries appended, in
original order, and never holds more than 11 entries.  In particular after 12
appends the first 1 entry is absent and entries 2-12 remain. -/
theorem transcript_cap_eleven (entries : List (Role × String))
    (h : ∀ p ∈ entries, jsTrim p.2 ≠ "") :
    appendAll [] entries = lastN 11 (entries.map (fun p => Message.mk p.1 p.2)) ∧
    (appendAll [] entries).length ≤ 11 := by
  have main : appendAll [] entries =
      lastN 11 (entries.map (fun p => Message.mk p.1 p.2)) := by
    have h0 := appendAll_eq_lastN_eleven entries [] h
    simpa using h0
  refine ⟨main, ?_⟩
  rw [main, length_lastN]
  omega

/-- Witness for `transcript_cap_eleven` at the spec's 12-entry vector. -/
theorem transcript_cap_eleven_witness :
    appendAll [] twelveEntries =
      lastN 11 (twelveEntries.map (fun p => Message.mk p.1 p.2)) ∧
    (appendAll [] twelveEntries).length ≤ 11 :=
  transcript_cap_eleven twelveEntries (by decide)

/-- One scheduled playback source (`AudioBufferSourceNode` held in
`audioSourcesRef`, App.tsx:27): its identity, the start time passed to
`source.start`, the buffer's duration, and whether it has already finished
playing naturally (so that calling `stop` on it raises). -/
structure Source where
  id : Nat
  startTime : Rat
  duration : Rat
  ended : Bool
deriving DecidableEq

/-- The playback-scheduler state: the `nextStartTime` cursor (App.tsx:25), the
active-source set (App.tsx:27, kept as a list in insertion order), and a
counter supplying fresh source identities. -/
structure SchedState where
  cursor : Rat
  activeSources : List Source
  nextId : Nat
deriving DecidableEq

/-- Stopping one source via `source.stop()`: raises (modelled as `Except.error`) when the
source already finished naturally, succeeds otherwise. -/
def tryStop (src : Source) : Except String Unit :=
  if src.ended then Except.error "InvalidStateError" else Except.ok ()

/-- Observable actions performed on the browser media stack, recorded as a
trace so that theorems can speak about which releases/stops happened. -/
inductive Effect where
  | stopAttempt (id : Nat)
  | startSource (id : Nat) (t : Rat)
  | closeSession
  | stopTrack (i : Nat)
  | closeInputContext
  | closeOutputContext
deriving DecidableEq

/-- The full stop `stopAllAudio` from App.tsx:36-42: for each active source attempt
`source.stop()` inside `try {...} catch (e) {}` — the result of each attempt
is discarded, so errors from already-ended sources are swallowed — then clear
the set and reset `nextStartTime` to 0.  Returns the new state and the trace
of stop attempts. -/
def stopAllAudio (s : SchedState) : SchedState × List Effect :=
  let attempts := s.activeSources.map (fun src => (Effect.stopAttempt src.id, tryStop src))
  (⟨0, [], s.nextId⟩, attempts.map (fun p => p.1))

/-- The audio-output branch of `handleMessage` (App.tsx:76-85): compute
`startTime = max(nextStartTime, outputCtx.currentTime)`, start a new source at
`startTime`, advance the cursor by the buffer's duration, and register the
source in the active set. -/
def enqueue (now d : Rat) (s : SchedState) : SchedState × Effect :=
  let startTime := max s.cursor now
  (⟨startTime + d,
    s.activeSources ++ [⟨s.nextId, startTime, d, false⟩],
    s.nextId + 1⟩,
   Effect.startSource s.nextId startTime)

/-- A sequence of `enqueue` calls; each list element carries the value of
`outputCtx.currentTime` observed at that call and the buffer's duration. -/
def runEnqueues (s : SchedState) : List (Rat × Rat) → SchedState
  | [] => s
  | c :: cs => runEnqueues (enqueue c.1 c.2 s).1 cs

/-- The gapless-scheduling order on sources: the later source starts no earlier
than the earlier one's start plus its duration, and starts are non-decreasing. -/
def NoOverlap (a b : Source) : Prop :=
  a.startTime + a.duration ≤ b.startTime ∧ a.startTime ≤ b.startTime

theorem runEnqueues_invariant (calls : List (Rat × Rat)) :
    ∀ s : SchedState, (∀ p ∈ calls, 0 ≤ p.2) →
      ((∀ src ∈ s.activeSources, src.startTime + src.duration ≤ s.cursor ∧
          0 ≤ src.duration) ∧
        List.Chain' NoOverlap s.activeSources) →
      ((∀ src ∈ (runEnqueues s calls).activeSources,
          src.startTime + src.duration ≤ (runEnqueues s calls).cursor ∧
          0 ≤ src.duration) ∧
        List.Chain' NoOverlap (runEnqueues s calls).activeSources) := by
  induction calls with
  | nil => intro s _ hinv; exact hinv
  | cons c cs ih =>
      intro s hd hinv
      have hc : 0 ≤ c.2 := hd c (List.mem_cons_self c cs)
      apply ih (enqueue c.1 c.2 s).1 (fun p hp => hd p (List.mem_cons_of_mem c hp))
      constructor
      · intro src hsrc
        simp only [enqueue, List.mem_append, List.mem_singleton] at hsrc
        rcases hsrc with hold | hnew
        · have h1 := (hinv.1 src hold).1
          have h2 := (hinv.1 src hold).2
          have hmax : s.cursor ≤ max s.cursor c.1 := le_max_left _ _
          constructor
          · calc src.startTime + src.duration ≤ s.cursor := h1
              _ ≤ max s.cursor c.1 := hmax
              _ ≤ max s.cursor c.1 + c.2 := by linarith
          · exact h2
        · subst hnew
          exact ⟨le_refl _, hc⟩
      · simp only [enqueue]
        rw [List.chain'_append]
        refine ⟨hinv.2, List.chain'_singleton _, ?_⟩
        intro x hx y hy
        simp only [List.head?, Option.mem_def, Option.some.injEq] at hy
        subst hy
        have hxmem : x ∈ s.activeSources := List.mem_of_mem_getLast? hx
        have h1 := (hinv.1 x hxmem).1
        have h2 := (hinv.1 x hxmem).2
        have hmax : s.cursor ≤ max s.cursor c.1 := le_max_left _ _
        constructor
        · calc x.startTime + x.duration ≤ s.cursor := h1
            _ ≤ max s.cursor c.1 := hmax
        · have : x.startTime ≤ x.startTime + x.duration := by linarith
          calc x.startTime ≤ s.cursor := by linarith
            _ ≤ max s.cursor c.1 := hmax

/-- C2: for any sequence of `enqueue` calls with non-negative buffer durations
and arbitrary `outputCtx.currentTime` observations (no intervening `stopAll`),
the scheduled sources — in enqueue order — have non-decreasing start times and
each start time is at least the previous start plus the previous duration:
`startTime = max(cursor, currentTime)` (App.tsx:80) makes the cursor enforce
the order regardless of call arrival timing. -/
theorem enqueue_gapless (c0 : Rat) (n0 : Nat) (calls : List (Rat × Rat))
    (hd : ∀ p ∈ calls, 0 ≤ p.2) :
    List.Chain' NoOverlap (runEnqueues ⟨c0, [], n0⟩ calls).activeSources :=
  (runEnqueues_invariant calls ⟨c0, [], n0⟩ hd
    ⟨fun src hsrc => absurd hsrc (List.not_mem_nil src), List.chain'_nil⟩).2

/-- Witness for `enqueue_gapless` at the spec's end-to-end vector: three
buffers of durations 0.5s, 0.3s, 0.2s enqueued with no gaps. -/
theorem enqueue_gapless_witness :
    List.Chain' NoOverlap
      (runEnqueues ⟨0, [], 0⟩ [(0, 1/2), (0, 3/10), (0, 1/5)]).activeSources :=
  enqueue_gapless 0 0 [(0, 1/2), (0, 3/10), (0, 1/5)]
    (by norm_num [List.forall_mem_cons])

/-- C3: `stopAllAudio` (App.tsx:36-42) always leaves the active-source set
empty and the cursor equal to 0, for every prior state — including when there
are no active sources — and is idempotent; a second consecutive call performs
no further stop attempts.  Errors from sources that already finished naturally
are swallowed: even when every stop attempt raises, the clear and reset still
happen, and each such source still receives its stop attempt. -/
theorem stopAll_resets (s : SchedState) :
    (stopAllAudio s).1.activeSources = [] ∧
    (stopAllAudio s).1.cursor = 0 ∧
    stopAllAudio (stopAllAudio s).1 = ((stopAllAudio s).1, []) ∧
    (∀ src ∈ s.activeSources, Effect.stopAttempt src.id ∈ (stopAllAudio s).2 ∧
      (src.ended = true → tryStop src = Except.error "InvalidStateError")) := by
  refine ⟨rfl, rfl, rfl, ?_⟩
  intro src hsrc
  constructor
  · simp only [stopAllAudio, List.map_map, List.mem_map]
    exact ⟨src, hsrc, rfl⟩
  · intro hend
    simp [tryStop, hend]

/-- Witness for `stopAll_resets` on a state with three active sources, one of
which has already ended (its stop attempt raises and is swallowed). -/
theorem stopAll_resets_witness :
    (stopAllAudio ⟨4/5, [⟨0, 0, 1/2, true⟩, ⟨1, 1/2, 3/10, false⟩,
        ⟨2, 4/5, 1/5, false⟩], 3⟩).1.activeSources = [] ∧
    (stopAllAudio ⟨4/5, [⟨0, 0, 1/2, true⟩, ⟨1, 1/2, 3/10, false⟩,
        ⟨2, 4/5, 1/5, false⟩], 3⟩).1.cursor = 0 ∧
    Effect.stopAttempt 0 ∈ (stopAllAudio ⟨4/5, [⟨0, 0, 1/2, true⟩,
        ⟨1, 1/2, 3/10, false⟩, ⟨2, 4/5, 1/5, false⟩], 3⟩).2 := by
  have h := stopAll_resets ⟨4/5, [⟨0, 0, 1/2, true⟩, ⟨1, 1/2, 3/10, false⟩,
    ⟨2, 4/5, 1/5, false⟩], 3⟩
  exact ⟨h.1, h.2.1, (h.2.2.2 ⟨0, 0, 1/2, true⟩ (List.mem_cons_self _ _)).1⟩

/-- Connection status, from src/types.ts:8-13. -/
inductive ConnectionStatus where
  | IDLE
  | CONNECTING
  | CONNECTED
  | ERROR
deriving DecidableEq

/-- The orchestrator state owned by the component (App.tsx:20-29): the status,
the transcript log, the two pending transcript fragments, the scheduler state,
and the three resource refs (`sessionRef`, `streamRef` with its track count,
`audioContextsRef`). -/
structure AppState where
  status : ConnectionStatus
  messages : List Message
  currentInput : String
  currentOutput : String
  sched : SchedState
  session : Bool
  streamTracks : Option Nat
  contexts : Bool
deriving DecidableEq

/-- One inbound `LiveServerMessage` as consumed by `handleMessage`
(App.tsx:44-87): the optional transcription fragments, the two flags, and the
optional audio payload abstracted by the duration of its decoded buffer
(`audioBuffer.duration`, App.tsx:82). -/
structure Msg where
  inputTranscription : Option String
  outputTranscription : Option String
  turnComplete : Bool
  interrupted : Bool
  audioDuration : Option Rat
deriving DecidableEq

/-- Step 1 of `handleMessage` (App.tsx:46-51): append any transcription
fragments to the pending user/agent fragments (accumulation, not replacement). -/
def stepTranscription (m : Msg) (s : AppState) : AppState :=
  let s1 := match m.inputTranscription with
    | some t => { s with currentInput := s.currentInput ++ t }
    | none => s
  match m.outputTranscription with
  | some t => { s1 with currentOutput := s1.currentOutput ++ t }
  | none => s1

/-- The flush of one pending fragment (App.tsx:56 and 60):
`if (finalInput) addMessage(role, finalInput)`. -/
def flushIf (role : Role) (frag : String) (log : List Message) : List Message :=
  if frag = "" then log else addMessage log role frag

/-- Step 2 of `handleMessage` (App.tsx:53-63): on `turnComplete`, flush the
user fragment then the agent fragment into the log and clear both. -/
def stepTurnComplete (m : Msg) (s : AppState) : AppState :=
  if m.turnComplete then
    { s with
      messages := flushIf Role.agent s.currentOutput
        (flushIf Role.user s.currentInput s.messages),
      currentInput := "", currentOutput := "" }
  else s

/-- Step 3 of `handleMessage` (App.tsx:66-68): on `interrupted`, invoke
`stopAllAudio`. -/
def stepInterruption (m : Msg) (s : AppState) : AppState × List Effect :=
  if m.interrupted then
    let r := stopAllAudio s.sched
    ({ s with sched := r.1 }, r.2)
  else (s, [])

/-- Step 4 of `handleMessage` (App.tsx:71-86): on an audio payload, and only
while the audio-contexts ref is live (`if (audioData && audioContextsRef.current)`,
App.tsx:72), decode it and enqueue the resulting buffer; `now` is
`outputCtx.currentTime` at this point. -/
def stepAudio (m : Msg) (now : Rat) (s : AppState) : AppState × List Effect :=
  match m.audioDuration with
  | some d =>
      if s.contexts then
        let r := enqueue now d s.sched
        ({ s with sched := r.1 }, [r.2])
      else (s, [])
  | none => (s, [])

/-- The handler `handleMessage` (App.tsx:44-87): the four steps in source order —
transcription accumulation, turn-complete flush, interruption stop, audio
enqueue — returning the new state and the trace of media-stack actions. -/
def handleMessage (m : Msg) (now : Rat) (s : AppState) : AppState × List Effect :=
  let s1 := stepTranscription m s
  let s2 := stepTurnComplete m s1
  let r3 := stepInterruption m s2
  let r4 := stepAudio m now r3.1
  (r4.1, r3.2 ++ r4.2)

/-- Teardown `stopSession` (App.tsx:152-168): close the session handle, stop every
track of the microphone stream, close both audio contexts — each release
guarded by an existence check on its ref — then `stopAllAudio` and status
IDLE.  Returns the new state and the trace of release actions performed. -/
def stopSession (s : AppState) : AppState × List Effect :=
  let fx1 := if s.session then [Effect.closeSession] else []
  let fx2 := match s.streamTracks with
    | some n => (List.range n).map Effect.stopTrack
    | none => []
  let fx3 := if s.contexts then [Effect.closeInputContext, Effect.closeOutputContext]
    else []
  let r := stopAllAudio s.sched
  (⟨ConnectionStatus.IDLE, s.messages, s.currentInput, s.currentOutput,
    r.1, false, none, false⟩,
   fx1 ++ fx2 ++ fx3 ++ r.2)

/-- C4: stopping a session is total (the model is a plain function — no
failure path) and idempotent: for every prior state, including mid-connect
states where some refs are still null, `stopSession` leaves the session handle
cleared, the stream released, both contexts closed, the scheduler fully
stopped (empty set, cursor 0) and the status IDLE; a second call returns the
same state and performs no further release actions; and each release action
appears in the trace exactly when the corresponding resource existed. -/
theorem stopSession_idempotent_total (s : AppState) :
    (stopSession s).1.session = false ∧
    (stopSession s).1.streamTracks = none ∧
    (stopSession s).1.contexts = false ∧
    (stopSession s).1.sched.activeSources = [] ∧
    (stopSession s).1.sched.cursor = 0 ∧
    (stopSession s).1.status = ConnectionStatus.IDLE ∧
    stopSession (stopSession s).1 = ((stopSession s).1, []) ∧
    (Effect.closeSession ∈ (stopSession s).2 ↔ s.session = true) ∧
    (Effect.closeInputContext ∈ (stopSession s).2 ↔ s.contexts = true) ∧
    (∀ i, Effect.stopTrack i ∈ (stopSession s).2 ↔
      ∃ n, s.streamTracks = some n ∧ i < n) := by
  refine ⟨rfl, rfl, rfl, rfl, rfl, rfl, rfl, ?_, ?_, ?_⟩
  · simp only [stopSession, stopAllAudio, List.mem_append, List.map_map,
      List.mem_map]
    constructor
    · rintro (((h | h) | h) | h)
      · revert h
        split
        · intro _
          assumption
        · intro h
          exact absurd h (List.not_mem_nil _)
      · revert h
        split
        · rename_i n _
          intro h
          rcases List.mem_map.mp h with ⟨i, _, hi⟩
          exact absurd hi (by simp)
        · intro h
          exact absurd h (List.not_mem_nil _)
      · revert h
        split
        · intro h
          simp at h
        · intro h
          exact absurd h (List.not_mem_nil _)
      · rcases h with ⟨src, _, hsrc⟩
        exact absurd hsrc (by simp)
    · intro h
      rw [h]
      simp
  · simp only [stopSession, stopAllAudio, List.mem_append, List.map_map,
      List.mem_map]
    constructor
    · rintro (((h | h) | h) | h)
      · revert h
        split
        · intro h
          simp at h
        · intro h
          exact absurd h (List.not_mem_nil _)
      · revert h
        split
        · rename_i n _
          intro h
          rcases List.mem_map.mp h with ⟨i, _, hi⟩
          exact absurd hi (by simp)
        · intro h
          exact absurd h (List.not_mem_nil _)
      · revert h
        split
        · intro _
          assumption
        · intro h
          exact absurd h (List.not_mem_nil _)
      · rcases h with ⟨src, _, hsrc⟩
        exact absurd hsrc (by simp)
    · intro h
      rw [h]
      simp
  · intro i
    simp only [stopSession, stopAllAudio, List.mem_append, List.map_map,
      List.mem_map]
    constructor
    · rintro (((h | h) | h) | h)
      · revert h
        split
        · intro h
          simp at h
        · intro h
          exact absurd h (List.not_mem_nil _)
      · revert h
        split
        · rename_i n hn
          intro h
          rcases List.mem_map.mp h with ⟨j, hj, hij⟩
          refine ⟨n, hn, ?_⟩
          have : j = i := by
            injection hij
          rw [← this]
          exact List.mem_range.mp hj
        · intro h
          exact absurd h (List.not_mem_nil _)
      · revert h
        split
        · intro h
          simp at h
        · intro h
          exact absurd h (List.not_mem_nil _)
      · rcases h with ⟨src, _, hsrc⟩
        exact absurd hsrc (by simp)
    · rintro ⟨n, hn, hin⟩
      rw [hn]
      exact Or.inl (Or.inl (Or.inr (List.mem_map.mpr ⟨i, List.mem_range.mpr hin, rfl⟩)))

/-- Witness for `stopSession_idempotent_total` on a fully-connected state with
one live source and two microphone tracks. -/
theorem stopSession_witness :
    (stopSession ⟨ConnectionStatus.CONNECTED, [], "", "",
        ⟨2, [⟨0, 1, 1, false⟩], 1⟩, true, some 2, true⟩).1.status =
      ConnectionStatus.IDLE ∧
    (stopSession ⟨ConnectionStatus.CONNECTED, [], "", "",
        ⟨2, [⟨0, 1, 1, false⟩], 1⟩, true, some 2, true⟩).1.sched.cursor = 0 ∧
    stopSession (stopSession ⟨ConnectionStatus.CONNECTED, [], "", "",
        ⟨2, [⟨0, 1, 1, false⟩], 1⟩, true, some 2, true⟩).1 =
      ((stopSession ⟨ConnectionStatus.CONNECTED, [], "", "",
        ⟨2, [⟨0, 1, 1, false⟩], 1⟩, true, some 2, true⟩).1, []) := by
  have h := stopSession_idempotent_total ⟨ConnectionStatus.CONNECTED, [], "", "",
    ⟨2, [⟨0, 1, 1, false⟩], 1⟩, true, some 2, true⟩
  exact ⟨h.2.2.2.2.2.1, h.2.2.2.2.1, h.2.2.2.2.2.2.1⟩

theorem flushIf_eq (role : Role) (t : String) (log : List Message) :
    flushIf role t log =
      if jsTrim t = "" then log else lastN 10 log ++ [⟨role, t⟩] := by
  by_cases h : t = ""
  · subst h
    have ht : jsTrim "" = "" := rfl
    simp [flushIf, ht]
  · simp [flushIf, addMessage, h]

theorem sched_stepTranscription (m : Msg) (s : AppState) :
    (stepTranscription m s).sched = s.sched := by
  unfold stepTranscription
  cases m.inputTranscription <;> cases m.outputTranscription <;> rfl

theorem sched_stepTurnComplete (m : Msg) (s : AppState) :
    (stepTurnComplete m s).sched = s.sched := by
  unfold stepTurnComplete
  cases m.turnComplete <;> simp

theorem contexts_stepTranscription (m : Msg) (s : AppState) :
    (stepTranscription m s).contexts = s.contexts := by
  unfold stepTranscription
  cases m.inputTranscription <;> cases m.outputTranscription <;> rfl

theorem contexts_stepTurnComplete (m : Msg) (s : AppState) :
    (stepTurnComplete m s).contexts = s.contexts := by
  unfold stepTurnComplete
  cases m.turnComplete <;> simp

/-- A turn-complete message with no other fields, and a state whose pending
user fragment is the whitespace-only (hence non-empty) string `" "`. -/
def msgTurnOnly : Msg := ⟨none, none, true, false, none⟩

def stateBlankFragment : AppState :=
  ⟨ConnectionStatus.CONNECTED, [], " ", "", ⟨0, [], 0⟩, true, some 1, true⟩

/-- C6 counterexample: the claim says every *non-empty* pending fragment is
flushed as exactly one entry.  With the non-empty user fragment `" "`, the
flush guard `if (finalInput)` passes but `addMessage` rejects the text at
`if (!text.trim()) return;` (App.tsx:32): zero entries are appended. -/
theorem flush_counterexample :
    stateBlankFragment.currentInput ≠ "" ∧
    (handleMessage msgTurnOnly 0 stateBlankFragment).1.messages = [] ∧
    (handleMessage msgTurnOnly 0 stateBlankFragment).1.currentInput = "" := by
  decide

/-- C6 (amended): on a turn-complete signal (with no transcription fragments
in the same message), a pending fragment is flushed into the log as exactly
one entry tagged with its role when its *trimmed* text is non-empty; an empty
or whitespace-only fragment contributes zero entries; both fragments are reset
to empty afterwards.  In particular pending fragments `"hello "` (user) and
`""` (agent) yield exactly one user entry `"hello "` and zero agent entries. -/
theorem flush_on_turn_complete (s : AppState) (m : Msg) (now : Rat)
    (h1 : m.turnComplete = true) (h2 : m.inputTranscription = none)
    (h3 : m.outputTranscription = none) :
    (handleMessage m now s).1.currentInput = "" ∧
    (handleMessage m now s).1.currentOutput = "" ∧
    (handleMessage m now s).1.messages =
      (if jsTrim s.currentOutput = "" then
        (if jsTrim s.currentInput = "" then s.messages
          else lastN 10 s.messages ++ [⟨Role.user, s.currentInput⟩])
       else lastN 10
        (if jsTrim s.currentInput = "" then s.messages
          else lastN 10 s.messages ++ [⟨Role.user, s.currentInput⟩]) ++
        [⟨Role.agent, s.currentOutput⟩]) := by
  cases hI : m.interrupted <;> cases hA : m.audioDuration <;>
    cases hC : s.contexts <;>
    simp [handleMessage, stepTranscription, h2, h3, stepTurnComplete, h1,
      stepInterruption, stepAudio, hI, hA, hC, flushIf_eq]

def stateHello : AppState :=
  ⟨ConnectionStatus.CONNECTED, [], "hello ", "", ⟨0, [], 0⟩, true, some 1, true⟩

/-- Witness for `flush_on_turn_complete` at the spec's `"hello "`/`""` vector. -/
theorem flush_on_turn_complete_witness :
    (handleMessage msgTurnOnly 0 stateHello).1.messages =
      [⟨Role.user, "hello "⟩] ∧
    (handleMessage msgTurnOnly 0 stateHello).1.currentInput = "" ∧
    (handleMessage msgTurnOnly 0 stateHello).1.currentOutput = "" := by
  have h := flush_on_turn_complete stateHello msgTurnOnly 0 rfl rfl rfl
  refine ⟨?_, h.1, h.2.1⟩
  rw [h.2.2]
  decide

/-- C7: whenever an inbound message carries the interruption signal,
`handleMessage` invokes `stopAllAudio` (App.tsx:66-68): immediately after that
step the active-source set is empty and the cursor is 0; every source that was
scheduled before the message receives a stop attempt in the trace; and when
the message carries no audio payload of its own, the final state also has an
empty set and cursor 0 — no previously scheduled audio continues playing. -/
theorem interruption_stops_all (m : Msg) (now : Rat) (s : AppState)
    (h : m.interrupted = true) :
    (stepInterruption m (stepTurnComplete m
      (stepTranscription m s))).1.sched.activeSources = [] ∧
    (stepInterruption m (stepTurnComplete m
      (stepTranscription m s))).1.sched.cursor = 0 ∧
    (∀ src ∈ s.sched.activeSources,
      Effect.stopAttempt src.id ∈ (handleMessage m now s).2) ∧
    (m.audioDuration = none →
      (handleMessage m now s).1.sched.activeSources = [] ∧
      (handleMessage m now s).1.sched.cursor = 0) := by
  have hs : (stepTurnComplete m (stepTranscription m s)).sched = s.sched := by
    rw [sched_stepTurnComplete, sched_stepTranscription]
  refine ⟨by simp [stepInterruption, h, stopAllAudio], by
    simp [stepInterruption, h, stopAllAudio], ?_, ?_⟩
  · intro src hsrc
    simp only [handleMessage, List.mem_append]
    left
    simp only [stepInterruption, h, if_true, stopAllAudio, List.map_map,
      List.mem_map, hs]
    exact ⟨src, hsrc, rfl⟩
  · intro hA
    simp [handleMessage, stepInterruption, h, stopAllAudio, stepAudio, hA]

/-- An interruption-only message and a state with three live sources, as in
the spec's end-to-end vector. -/
def msgInterruptOnly : Msg := ⟨none, none, false, true, none⟩

def stateThreeSources : AppState :=
  ⟨ConnectionStatus.CONNECTED, [], "", "",
    ⟨10, [⟨0, 0, 5, false⟩, ⟨1, 5, 3, false⟩, ⟨2, 8, 2, false⟩], 3⟩,
    true, some 1, true⟩

/-- Witness for `interruption_stops_all`: three scheduled sources, an
interruption message — all three are stopped and the cursor is reset to 0. -/
theorem interruption_stops_all_witness :
    (handleMessage msgInterruptOnly 0 stateThreeSources).1.sched.activeSources
      = [] ∧
    (handleMessage msgInterruptOnly 0 stateThreeSources).1.sched.cursor = 0 ∧
    Effect.stopAttempt 0 ∈ (handleMessage msgInterruptOnly 0 stateThreeSources).2 := by
  have h := interruption_stops_all msgInterruptOnly 0 stateThreeSources rfl
  have hmem := h.2.2.1 ⟨0, 0, 5, false⟩ (List.mem_cons_self _ _)
  exact ⟨(h.2.2.2 rfl).1, (h.2.2.2 rfl).2, hmem⟩

/-- C10: within one `handleMessage` invocation the fields are processed in the
fixed source order — transcription, turn-complete flush, interruption stop,
audio enqueue (App.tsx:44-87).  For a message carrying all of: a user
transcription fragment, the turn-complete flag, the interruption flag, and an
audio payload, received while the audio-contexts ref is live (the guard at
App.tsx:72): the flushed user entry includes the fragment appended in this
very message; every previously scheduled source is stopped *before* the new
chunk is started (the trace lists the stop attempts first); and the new chunk
is scheduled from the reset cursor, so it is the only remaining active source. -/
theorem message_field_order (s : AppState) (m : Msg) (now d : Rat) (t : String)
    (h1 : m.interrupted = true) (h2 : m.audioDuration = some d)
    (h3 : m.turnComplete = true) (h4 : m.inputTranscription = some t)
    (h5 : m.outputTranscription = none) (h6 : s.currentOutput = "")
    (h7 : jsTrim (s.currentInput ++ t) ≠ "") (h8 : s.contexts = true) :
    (handleMessage m now s).1.sched.activeSources =
      [⟨s.sched.nextId, max 0 now, d, false⟩] ∧
    (handleMessage m now s).1.sched.cursor = max 0 now + d ∧
    (handleMessage m now s).2 =
      s.sched.activeSources.map (fun src => Effect.stopAttempt src.id) ++
        [Effect.startSource s.sched.nextId (max 0 now)] ∧
    (handleMessage m now s).1.messages =
      lastN 10 s.messages ++ [⟨Role.user, s.currentInput ++ t⟩] ∧
    (handleMessage m now s).1.currentInput = "" ∧
    (handleMessage m now s).1.currentOutput = "" := by
  have hne : s.currentInput ++ t ≠ "" := by
    intro he
    apply h7
    rw [he]
    rfl
  simp [handleMessage, stepTranscription, h4, h5, stepTurnComplete, h3,
    stepInterruption, h1, stopAllAudio, stepAudio, h2, h8, enqueue, flushIf,
    h6, hne, addMessage, h7]

/-- A message carrying a user fragment, turn-complete, interruption, and an
audio payload all at once. -/
def msgAllFields : Msg := ⟨some "lo ", none, true, true, some 2⟩

def stateMidUtterance : AppState :=
  ⟨ConnectionStatus.CONNECTED, [], "hel", "",
    ⟨10, [⟨0, 0, 5, false⟩, ⟨1, 5, 3, false⟩], 2⟩, true, some 1, true⟩

/-- Witness for `message_field_order`: a single message with all four fields
set, applied to a state with two scheduled sources and pending fragment
`"hel"`. -/
theorem message_field_order_witness :
    (handleMessage msgAllFields 1 stateMidUtterance).1.sched.activeSources =
      [⟨2, max 0 1, 2, false⟩] ∧
    (handleMessage msgAllFields 1 stateMidUtterance).1.sched.cursor =
      max 0 1 + 2 ∧
    (handleMessage msgAllFields 1 stateMidUtterance).2 =
      stateMidUtterance.sched.activeSources.map
        (fun src => Effect.stopAttempt src.id) ++
        [Effect.startSource 2 (max 0 1)] ∧
    (handleMessage msgAllFields 1 stateMidUtterance).1.messages =
      lastN 10 stateMidUtterance.messages ++ [⟨Role.user, "hel" ++ "lo "⟩] ∧
    (handleMessage msgAllFields 1 stateMidUtterance).1.currentInput = "" ∧
    (handleMessage msgAllFields 1 stateMidUtterance).1.currentOutput = "" :=
  message_field_order stateMidUtterance msgAllFields 1 2 "lo "
    rfl rfl rfl rfl rfl rfl (by decide) rfl

/-- The `onended` callback of one source (App.tsx:85):
`audioSourcesRef.current.delete(source)` — removal only, nothing else changes. -/
def sourceEndedStep (id : Nat) (s : SchedState) : SchedState :=
  ⟨s.cursor, s.activeSources.filter (fun src => src.id ≠ id), s.nextId⟩

/-- The operations that touch orchestrator state while a session is active:
an inbound message (App.tsx:44-87), a source's natural-completion notification
(App.tsx:85), and session teardown (App.tsx:152-168). -/
inductive Op where
  | message (m : Msg) (now : Rat)
  | sourceEnded (id : Nat)
  | endSession

def applyOp : Op → AppState → AppState
  | Op.message m now, s => (handleMessage m now s).1
  | Op.sourceEnded id, s => { s with sched := sourceEndedStep id s.sched }
  | Op.endSession, s => (stopSession s).1

/-- Whether an operation reaches the `stopAllAudio` call: an interrupted
message (App.tsx:66-68) or session teardown (App.tsx:166). -/
def invokesStopAll : Op → Bool
  | Op.message m _ => m.interrupted
  | Op.sourceEnded _ => false
  | Op.endSession => true

/-- Audio buffers have non-negative durations. -/
def opAudioNonneg : Op → Prop
  | Op.message m _ => ∀ d, m.audioDuration = some d → 0 ≤ d
  | Op.sourceEnded _ => True
  | Op.endSession => True

/-- The scheduler state immediately after the `stopAllAudio` call inside an
operation, when the operation performs one. -/
def schedAfterStop : Op → AppState → Option SchedState
  | Op.message m _, s =>
      if m.interrupted then
        some (stepInterruption m (stepTurnComplete m
          (stepTranscription m s))).1.sched
      else none
  | Op.sourceEnded _, _ => none
  | Op.endSession, s => some (stopSession s).1.sched

/-- C5: the playback cursor (`nextStartTime`) never decreases under any
operation that does not reach `stopAllAudio` — enqueueing advances it by
`max(cursor, now) + d ≥ cursor` (App.tsx:80-82) and source removal leaves it
untouched — and whenever an operation does reach `stopAllAudio`, the cursor is
set to 0 in the same step that stops and clears all scheduled sources. -/
theorem cursor_monotone (op : Op) (s : AppState) (h : opAudioNonneg op) :
    ((applyOp op s).sched.cursor < s.sched.cursor → invokesStopAll op = true) ∧
    (invokesStopAll op = true →
      schedAfterStop op s = some ⟨0, [], s.sched.nextId⟩) := by
  cases op with
  | message m now =>
      cases hI : m.interrupted with
      | true =>
          refine ⟨fun _ => by simp [invokesStopAll, hI], fun _ => ?_⟩
          have hs : (stepTurnComplete m (stepTranscription m s)).sched =
              s.sched := by
            rw [sched_stepTurnComplete, sched_stepTranscription]
          simp [schedAfterStop, hI, stepInterruption, stopAllAudio, hs]
      | false =>
          refine ⟨fun hlt => ?_, fun hcontra => by
            simp [invokesStopAll, hI] at hcontra⟩
          exfalso
          have hs : (stepTurnComplete m (stepTranscription m s)).sched =
              s.sched := by
            rw [sched_stepTurnComplete, sched_stepTranscription]
          have hge : s.sched.cursor ≤
              (applyOp (Op.message m now) s).sched.cursor := by
            cases hA : m.audioDuration with
            | none =>
                simp [applyOp, handleMessage, stepInterruption, hI,
                  stepAudio, hA, hs]
            | some d =>
                have hd : 0 ≤ d := h d hA
                have hmax : s.sched.cursor ≤ max s.sched.cursor now :=
                  le_max_left _ _
                have hctx : (stepTurnComplete m
                    (stepTranscription m s)).contexts = s.contexts := by
                  rw [contexts_stepTurnComplete, contexts_stepTranscription]
                cases hC : s.contexts with
                | false =>
                    simp only [applyOp, handleMessage, stepInterruption, hI,
                      Bool.false_eq_true, if_false, stepAudio, hA, hctx, hC,
                      hs]
                    exact le_refl _
                | true =>
                    simp only [applyOp, handleMessage, stepInterruption, hI,
                      Bool.false_eq_true, if_false, stepAudio, hA, hctx, hC,
                      if_true, enqueue, hs]
                    linarith
          exact absurd hlt (not_lt.mpr hge)
  | sourceEnded id =>
      refine ⟨fun hlt => ?_, fun hcontra => by
        simp [invokesStopAll] at hcontra⟩
      exact absurd hlt (lt_irrefl _)
  | endSession =>
      exact ⟨fun _ => rfl, fun _ => by
        simp [schedAfterStop, stopSession, stopAllAudio]⟩

/-- Witness for `cursor_monotone` at session teardown on a state with two
live sources: the stop step yields cursor 0 with an empty set. -/
theorem cursor_monotone_witness :
    schedAfterStop Op.endSession stateMidUtterance = some ⟨0, [], 2⟩ :=
  (cursor_monotone Op.endSession stateMidUtterance trivial).2 rfl

/-- The session-lifecycle events: the Start/Retry button (App.tsx:212-218,
221-227), the SDK's open/error/close callbacks (App.tsx:114, 133, 137) and
the connect failure path (App.tsx:146-149) both mapped to `errorNotif`, and
the End Call button (App.tsx:191-197). -/
inductive SessionEvent where
  | startRequest
  | openNotif
  | errorNotif
  | closeNotif
  | stopRequest
deriving DecidableEq

/-- What each handler sets the status to: `startSession` sets CONNECTING
(App.tsx:91), `onopen` sets CONNECTED (App.tsx:115), `onerror` and the catch
block set ERROR (App.tsx:135, 148), `onclose` and `stopSession` set IDLE
(App.tsx:138, 167). -/
def handlerTarget : SessionEvent → ConnectionStatus
  | SessionEvent.startRequest => ConnectionStatus.CONNECTING
  | SessionEvent.openNotif => ConnectionStatus.CONNECTED
  | SessionEvent.errorNotif => ConnectionStatus.ERROR
  | SessionEvent.closeNotif => ConnectionStatus.IDLE
  | SessionEvent.stopRequest => ConnectionStatus.IDLE

/-- Which events can fire in which status: the Start button renders only in
IDLE (App.tsx:212), the Retry button only in ERROR (App.tsx:221), the End
Call button only in CONNECTED (App.tsx:191); the open notification fires only
during the connect handshake, failures during connect or while connected, and
the service's close notification while connected (session-lifecycle contract
of the external service, spec sections 4.5 and 6). -/
def eventEnabled : ConnectionStatus → SessionEvent → Bool
  | ConnectionStatus.IDLE, SessionEvent.startRequest => true
  | ConnectionStatus.ERROR, SessionEvent.startRequest => true
  | ConnectionStatus.CONNECTING, SessionEvent.openNotif => true
  | ConnectionStatus.CONNECTING, SessionEvent.errorNotif => true
  | ConnectionStatus.CONNECTED, SessionEvent.errorNotif => true
  | ConnectionStatus.CONNECTED, SessionEvent.closeNotif => true
  | ConnectionStatus.CONNECTED, SessionEvent.stopRequest => true
  | _, _ => false

/-- The induced status transition relation. -/
def transition (s : ConnectionStatus) (e : SessionEvent) :
    Option ConnectionStatus :=
  if eventEnabled s e then some (handlerTarget e) else none

/-- C8: the session status follows exactly the four-state machine
Idle → Connecting → Connected → (Idle | Error): start moves Idle to
Connecting, open moves Connecting to Connected, explicit stop or the close
notification moves Connected to Idle, a failure moves Connecting or Connected
to Error, and from Error only a fresh start re-enters Connecting; no other
transitions occur. -/
theorem status_state_machine (s : ConnectionStatus) (e : SessionEvent)
    (s' : ConnectionStatus) :
    transition s e = some s' ↔
      ((s = ConnectionStatus.IDLE ∧ e = SessionEvent.startRequest ∧
          s' = ConnectionStatus.CONNECTING) ∨
       (s = ConnectionStatus.CONNECTING ∧ e = SessionEvent.openNotif ∧
          s' = ConnectionStatus.CONNECTED) ∨
       (s = ConnectionStatus.CONNECTED ∧
          (e = SessionEvent.stopRequest ∨ e = SessionEvent.closeNotif) ∧
          s' = ConnectionStatus.IDLE) ∨
       ((s = ConnectionStatus.CONNECTING ∨ s = ConnectionStatus.CONNECTED) ∧
          e = SessionEvent.errorNotif ∧ s' = ConnectionStatus.ERROR) ∨
       (s = ConnectionStatus.ERROR ∧ e = SessionEvent.startRequest ∧
          s' = ConnectionStatus.CONNECTING)) := by
  cases s <;> cases e <;> cases s' <;> decide

/-- Witness for `status_state_machine`: a start request in IDLE enters
CONNECTING. -/
theorem status_state_machine_witness :
    transition ConnectionStatus.IDLE SessionEvent.startRequest =
      some ConnectionStatus.CONNECTING :=
  (status_state_machine ConnectionStatus.IDLE SessionEvent.startRequest
    ConnectionStatus.CONNECTING).mpr (Or.inl ⟨rfl, rfl, rfl⟩)

/-- Modelled from the spec: the sample clamp in `encodeFrame`
(utils/audio-utils is imported by App.tsx:6 but is not part of src/).
Spec 4.1: "clamps each sample to [−1, 1]". -/
def clampSample (s : Rat) : Rat := min 1 (max (-1) s)

/-- Modelled from the spec: the scaling step of `encodeFrame` (spec 4.1:
"scales to a 16-bit signed integer range"): multiply by 32768, round, and
saturate into the representable 16-bit signed range. -/
def sampleToInt16 (s : Rat) : Int :=
  min 32767 (max (-32768) (round (clampSample s * 32768)))

/-- Modelled from the spec: little-endian serialization of one 16-bit signed
sample (spec 4.1: "serializes little-endian"), as the two's-complement byte
pair. -/
def int16ToBytes (i : Int) : List Nat :=
  [(i % 65536).toNat % 256, (i % 65536).toNat / 256]

/-- Modelled from the spec: reassembling one little-endian 16-bit signed
integer from its byte pair (spec 4.1, `bytesToFloatSamples`). -/
def bytesToInt16 (lo hi : Nat) : Int :=
  if lo + 256 * hi < 32768 then (lo + 256 * hi : Int)
  else (lo + 256 * hi : Int) - 65536

/-- Modelled from the spec: "reinterprets raw little-endian 16-bit signed
integers as normalized floats (divide by 32768)" (spec 4.1). -/
def int16ToSample (i : Int) : Rat := (i : Rat) / 32768

/-- Modelled from the spec: the PCM body of `encodeFrame` — every sample
clamped, scaled and serialized little-endian (spec 4.1). -/
def floatTo16BitPCM (samples : List Rat) : List Nat :=
  (samples.map (fun s => int16ToBytes (sampleToInt16 s))).flatten

/-- Modelled from the spec: `bytesToFloatSamples` (spec 4.1) — consume the
byte stream two bytes at a time; a trailing odd byte is ignored. -/
def bytesToFloatSamples : List Nat → List Rat
  | lo :: hi :: rest => int16ToSample (bytesToInt16 lo hi) ::
      bytesToFloatSamples rest
  | _ => []

/-- The base64 alphabet, for the text envelope (spec 4.1: "wraps the result
as a base64-style text envelope"). -/
def b64Alphabet : List Char :=
  ['A', 'B', 'C', 'D', 'E', 'F', 'G', 'H', 'I', 'J', 'K', 'L', 'M',
   'N', 'O', 'P', 'Q', 'R', 'S', 'T', 'U', 'V', 'W', 'X', 'Y', 'Z',
   'a', 'b', 'c', 'd', 'e', 'f', 'g', 'h', 'i', 'j', 'k', 'l', 'm',
   'n', 'o', 'p', 'q', 'r', 's', 't', 'u', 'v', 'w', 'x', 'y', 'z',
   '0', '1', '2', '3', '4', '5', '6', '7', '8', '9', '+', '/']

/-- Modelled from the spec: group the byte stream into 6-bit sextets, three
bytes to four sextets, with the standard partial-group rules. -/
def sextetsOf : List Nat → List Nat
  | [] => []
  | [a] => [a / 4, a % 4 * 16]
  | [a, b] => [a / 4, a % 4 * 16 + b / 16, b % 16 * 4]
  | a :: b :: c :: rest =>
      (a / 4) :: (a % 4 * 16 + b / 16) :: (b % 16 * 4 + c / 64) :: (c % 64) ::
        sextetsOf rest

/-- Modelled from the spec: the inverse grouping, four sextets back to three
bytes (partial groups of two or three sextets yield one or two bytes). -/
def bytesOfSextets : List Nat → List Nat
  | [x, y] => [x * 4 + y / 16]
  | [x, y, z] => [x * 4 + y / 16, y % 16 * 16 + z / 4]
  | x :: y :: z :: w :: rest => (x * 4 + y / 16) :: (y % 16 * 16 + z / 4) ::
      (z % 4 * 64 + w) :: bytesOfSextets rest
  | _ => []

/-- Modelled from the spec: the text envelope — sextets mapped through the
base64 alphabet, padded with `=` to a multiple of four characters. -/
def b64EncodeChars (bs : List Nat) : List Char :=
  let cs := (sextetsOf bs).map (fun n => b64Alphabet.getD n ' ')
  cs ++ List.replicate ((4 - cs.length % 4) % 4) '='

/-- The index of one envelope character in the base64 alphabet; `none` when
the character is not validly encoded (spec 4.1, `decodeBlob` fails with
`DecodeError`). -/
def b64CharIndex (c : Char) : Option Nat :=
  let i := b64Alphabet.indexOf c
  if i < 64 then some i else none

def decodeIndices : List Char → Option (List Nat)
  | [] => some []
  | c :: cs =>
      match b64CharIndex c, decodeIndices cs with
      | some i, some is => some (i :: is)
      | _, _ => none

/-- Modelled from the spec: `decodeBlob` — strip padding, map the characters
back to sextets (failing on an invalid character), regroup into bytes. -/
def b64DecodeChars (cs : List Char) : Option (List Nat) :=
  (decodeIndices (cs.filter (fun c => c ≠ '='))).map bytesOfSextets

/-- Modelled from the spec: one outbound audio chunk in the transport's
envelope (spec data model, `WireBlob`). -/
structure WireBlob where
  data : List Char
  mimeType : String

/-- Modelled from the spec: `createPcmBlob`/`encodeFrame` — clamp, scale,
serialize little-endian, wrap as a base64 text envelope "tagged as 16 kHz raw
PCM audio" (spec 4.1). -/
def createPcmBlob (samples : List Rat) : WireBlob :=
  ⟨b64EncodeChars (floatTo16BitPCM samples), "audio/pcm;rate=16000"⟩

theorem b64_char_roundtrip :
    ∀ n, n < 64 → b64CharIndex (b64Alphabet.getD n ' ') = some n := by
  decide

theorem b64_char_ne_pad : ∀ n, n < 64 → b64Alphabet.getD n ' ' ≠ '=' := by
  decide

theorem sextetsOf_lt (bs : List Nat) (h : ∀ b ∈ bs, b < 256) :
    ∀ x ∈ sextetsOf bs, x < 64 := by
  induction bs using sextetsOf.induct with
  | case1 => intro x hx; exact absurd hx (List.not_mem_nil x)
  | case2 a =>
      intro x hx
      have ha : a < 256 := h a (by simp)
      simp only [sextetsOf, List.mem_cons, List.not_mem_nil, or_false] at hx
      rcases hx with rfl | rfl <;> omega
  | case3 a b =>
      intro x hx
      have ha : a < 256 := h a (by simp)
      have hb : b < 256 := h b (by simp)
      simp only [sextetsOf, List.mem_cons, List.not_mem_nil, or_false] at hx
      rcases hx with rfl | rfl | rfl <;> omega
  | case4 a b c rest ih =>
      intro x hx
      have ha : a < 256 := h a (by simp)
      have hb : b < 256 := h b (by simp)
      have hc : c < 256 := h c (by simp)
      simp only [sextetsOf, List.mem_cons] at hx
      rcases hx with rfl | rfl | rfl | rfl | hx
      · omega
      · omega
      · omega
      · omega
      · exact ih (fun y hy => h y (by simp [hy])) x hx

theorem bytes_sextets_roundtrip (bs : List Nat) (h : ∀ b ∈ bs, b < 256) :
    bytesOfSextets (sextetsOf bs) = bs := by
  induction bs using sextetsOf.induct with
  | case1 => rfl
  | case2 a =>
      have ha : a < 256 := h a (by simp)
      simp [sextetsOf, bytesOfSextets]
      omega
  | case3 a b =>
      have ha : a < 256 := h a (by simp)
      have hb : b < 256 := h b (by simp)
      simp [sextetsOf, bytesOfSextets]
      constructor <;> omega
  | case4 a b c rest ih =>
      have ha : a < 256 := h a (by simp)
      have hb : b < 256 := h b (by simp)
      have hc : c < 256 := h c (by simp)
      simp [sextetsOf, bytesOfSextets]
      refine ⟨by omega, by omega, by omega,
        ih (fun x hx => h x (by simp [hx]))⟩

theorem decodeIndices_map (sx : List Nat) (h : ∀ n ∈ sx, n < 64) :
    decodeIndices (sx.map (fun n => b64Alphabet.getD n ' ')) = some sx := by
  induction sx with
  | nil => rfl
  | cons n ns ih =>
      have hn : n < 64 := h n (List.mem_cons_self _ _)
      have hrt := b64_char_roundtrip n hn
      simp only [List.map_cons, decodeIndices, hrt,
        ih (fun m hm => h m (List.mem_cons_of_mem _ hm))]

theorem filter_pad (sx : List Nat) (h : ∀ n ∈ sx, n < 64) (k : Nat) :
    ((sx.map (fun n => b64Alphabet.getD n ' ')) ++
        List.replicate k '=').filter (fun c => c ≠ '=') =
      sx.map (fun n => b64Alphabet.getD n ' ') := by
  rw [List.filter_append]
  have hpad : (List.replicate k '=').filter (fun c => c ≠ '=') = [] := by
    induction k with
    | zero => rfl
    | succ k ih => simp [List.replicate_succ, ih]
  rw [hpad, List.append_nil]
  apply List.filter_eq_self.mpr
  intro c hc
  rcases List.mem_map.mp hc with ⟨n, hn, rfl⟩
  simpa using b64_char_ne_pad n (h n hn)

theorem b64_roundtrip (bs : List Nat) (h : ∀ b ∈ bs, b < 256) :
    b64DecodeChars (b64EncodeChars bs) = some bs := by
  unfold b64DecodeChars b64EncodeChars
  simp only
  rw [filter_pad (sextetsOf bs) (sextetsOf_lt bs h),
    decodeIndices_map (sextetsOf bs) (sextetsOf_lt bs h)]
  simp [bytes_sextets_roundtrip bs h]

theorem int16ToBytes_lt (i : Int) : ∀ b ∈ int16ToBytes i, b < 256 := by
  intro b hb
  simp only [int16ToBytes, List.mem_cons, List.not_mem_nil, or_false] at hb
  rcases hb with rfl | rfl <;> omega

theorem bytesToInt16_int16ToBytes (i : Int) (h1 : -32768 ≤ i)
    (h2 : i ≤ 32767) :
    bytesToInt16 ((i % 65536).toNat % 256) ((i % 65536).toNat / 256) = i := by
  unfold bytesToInt16
  split <;> omega

theorem sampleToInt16_bounds (s : Rat) :
    -32768 ≤ sampleToInt16 s ∧ sampleToInt16 s ≤ 32767 := by
  unfold sampleToInt16
  refine ⟨le_min (by norm_num) ?_, min_le_left _ _⟩
  exact le_max_left _ _

theorem quantization_close (s : Rat) (h1 : -1 ≤ s) (h2 : s ≤ 1) :
    |int16ToSample (sampleToInt16 s) - s| ≤ 1 / 32768 := by
  have hc : clampSample s = s := by
    unfold clampSample
    rw [max_eq_right h1, min_eq_right h2]
  unfold sampleToInt16 int16ToSample
  rw [hc]
  set r := round (s * 32768) with hrdef
  have habs : |s * 32768 - (r : Rat)| ≤ 1 / 2 := abs_sub_round (s * 32768)
  rw [abs_le] at habs
  have hub : r ≤ 32768 := by
    by_contra hcon
    push_neg at hcon
    have hcon2 : (32769 : Rat) ≤ (r : Rat) := by exact_mod_cast hcon
    have : s * 32768 ≤ 32768 := by linarith
    linarith [habs.1]
  have hlb : -32768 ≤ r := by
    by_contra hcon
    push_neg at hcon
    have hle : r ≤ -32769 := by omega
    have hle2 : (r : Rat) ≤ -32769 := by exact_mod_cast hle
    have : -32768 ≤ s * 32768 := by linarith
    linarith [habs.2]
  rw [max_eq_right hlb]
  by_cases hcase : r ≤ 32767
  · rw [min_eq_right hcase, abs_le]
    constructor <;> linarith [habs.1, habs.2]
  · push_neg at hcase
    have hreq : r = 32768 := by omega
    have hrq : (r : Rat) = 32768 := by exact_mod_cast hreq
    rw [min_eq_left (by omega : (32767 : Int) ≤ r), abs_le]
    constructor
    · push_cast
      linarith [habs.1]
    · push_cast
      linarith [habs.2]

theorem decoded_samples_close (samples : List Rat)
    (h : ∀ x ∈ samples, -1 ≤ x ∧ x ≤ 1) :
    List.Forall₂ (fun o x => |o - x| ≤ 1 / 32768)
      (bytesToFloatSamples (floatTo16BitPCM samples)) samples := by
  induction samples with
  | nil => exact List.Forall₂.nil
  | cons x xs ih =>
      have hx := h x (List.mem_cons_self _ _)
      have hb := sampleToInt16_bounds x
      have hflat : floatTo16BitPCM (x :: xs) =
          int16ToBytes (sampleToInt16 x) ++ floatTo16BitPCM xs := by
        simp [floatTo16BitPCM]
      rw [hflat]
      have hsplit : bytesToFloatSamples
          (int16ToBytes (sampleToInt16 x) ++ floatTo16BitPCM xs) =
          int16ToSample (bytesToInt16 (((sampleToInt16 x) % 65536).toNat % 256)
            (((sampleToInt16 x) % 65536).toNat / 256)) ::
            bytesToFloatSamples (floatTo16BitPCM xs) := rfl
      rw [hsplit, bytesToInt16_int16ToBytes _ hb.1 hb.2]
      exact List.Forall₂.cons (quantization_close x hx.1 hx.2)
        (ih (fun y hy => h y (List.mem_cons_of_mem _ hy)))

theorem floatTo16BitPCM_lt (samples : List Rat) :
    ∀ b ∈ floatTo16BitPCM samples, b < 256 := by
  intro b hb
  unfold floatTo16BitPCM at hb
  rcases List.mem_flatten.mp hb with ⟨l, hl, hbl⟩
  rcases List.mem_map.mp hl with ⟨x, _, rfl⟩
  exact int16ToBytes_lt (sampleToInt16 x) b hbl

/-- C9: for every valid frame (all samples in [-1, 1]), encoding — clamp,
scale to the 16-bit signed range, serialize little-endian, wrap in the base64
text envelope tagged as 16 kHz PCM — followed by the inverse decode and
divide-by-32768 reproduces the original samples within 16-bit quantization
error: the envelope decodes exactly to the PCM bytes, and each decoded sample
differs from its original by at most 1/32768 (one quantization step). -/
theorem codec_roundtrip (samples : List Rat)
    (h : ∀ x ∈ samples, -1 ≤ x ∧ x ≤ 1) :
    b64DecodeChars (createPcmBlob samples).data =
      some (floatTo16BitPCM samples) ∧
    List.Forall₂ (fun o x => |o - x| ≤ 1 / 32768)
      (bytesToFloatSamples (floatTo16BitPCM samples)) samples ∧
    (createPcmBlob samples).mimeType = "audio/pcm;rate=16000" :=
  ⟨b64_roundtrip (floatTo16BitPCM samples) (floatTo16BitPCM_lt samples),
   decoded_samples_close samples h, rfl⟩

/-- Witness for `codec_roundtrip` on the frame [0, 1, -1]. -/
theorem codec_roundtrip_witness :
    b64DecodeChars (createPcmBlob [0, 1, -1]).data =
      some (floatTo16BitPCM [0, 1, -1]) ∧
    List.Forall₂ (fun o x => |o - x| ≤ 1 / 32768)
      (bytesToFloatSamples (floatTo16BitPCM [0, 1, -1])) [0, 1, -1] ∧
    (createPcmBlob [0, 1, -1]).mimeType = "audio/pcm;rate=16000" :=
  codec_roundtrip [0, 1, -1] (by
    intro x hx
    simp only [List.mem_cons, List.not_mem_nil, or_false] at hx
    rcases hx with rfl | rfl | rfl <;> constructor <;> norm_num)
